import Mathlib

/-!
Verification of the file-bookkeeping logic of `app.py` (Saras upload UI).

The embedded functions are `get_file_stats`, `format_file_size`,
`process_uploads`, `delete_file` and `clear_all_files`.  Streamlit session
state becomes an explicit `AppState`; the `uploads/` directory becomes an
association list from path strings to byte lists (bytes as `Nat`).  Disk
operations that can fail (`os.remove`) are parameterised by a failure
oracle `fail : String → Bool` modelling permission errors; a removal also
fails when the path is absent from the disk (Python `FileNotFoundError`).
-/

namespace Saras

/-- One byte payload: a list of byte values. -/
abbrev Bytes := List Nat

/-- The on-disk `uploads/` directory: newest write first; a path may occur
several times, lookup sees the most recent write (Python `open(..,"wb")`
overwrites). -/
abbrev Disk := List (String × Bytes)

/-- Most recent content written at path `p`, if any. -/
def diskLookup : Disk → String → Option Bytes
  | [], _ => none
  | (q, b) :: rest, p => if q = p then some b else diskLookup rest p

/-- Write: `open(path, "wb"); write(bytes)`; the new content shadows older writes. -/
def diskWrite (d : Disk) (p : String) (b : Bytes) : Disk := (p, b) :: d

/-- Whether a file exists at path `p` (for `os.remove` success). -/
def diskHas (d : Disk) (p : String) : Bool := (diskLookup d p).isSome

/-- Drop every record of path `p` (successful `os.remove`). -/
def diskErase (d : Disk) (p : String) : Disk := d.filter (fun e => e.1 != p)

/-- An entry of `st.session_state.uploaded_files` (app.py lines 109-114):
the dict `{"name": .., "path": .., "type": .., "size": ..}`. -/
structure UploadedFile where
  name : String
  path : String
  ftype : String   -- the dict key "type" (a MIME string)
  size : Nat
deriving Repr, DecidableEq

/-- Session state plus the upload directory. -/
structure AppState where
  files : List UploadedFile
  disk : Disk
deriving Repr, DecidableEq

/-- An item of the uploaded batch, as handed over by `st.file_uploader`:
a Streamlit `UploadedFile` object.  Both `file.read()` (at position 0) and
`file.getvalue()` return the full payload `bytes`; Streamlit's class is a
`BytesIO` subclass, so `hasattr(file, 'getvalue')` is true and
app.py line 113 stores `len(file.getvalue())`. -/
structure IncomingFile where
  name : String
  ftype : String
  bytes : Bytes
deriving Repr, DecidableEq

/-- The path `UPLOAD_DIR / file.name` (app.py line 101, `UPLOAD_DIR = Path("uploads")`). -/
def filePath (name : String) : String := "uploads/" ++ name

/-- The dict appended at app.py lines 109-114 for a saved file. -/
def mkEntry (f : IncomingFile) : UploadedFile :=
  { name := f.name, path := filePath f.name, ftype := f.ftype,
    size := f.bytes.length }

/-- One iteration of the loop in `process_uploads` (app.py lines 100-115):
recompute `existing_names` from the current state, skip a duplicate name,
otherwise write the bytes to disk and append the new entry, setting
`new_files_added = True`. -/
def processOne (st : AppState) (flag : Bool) (f : IncomingFile) :
    AppState × Bool :=
  if f.name ∈ st.files.map UploadedFile.name then (st, flag)
  else
    ({ files := st.files ++ [mkEntry f],
       disk := diskWrite st.disk (filePath f.name) f.bytes }, true)

/-- Embedding of `process_uploads(uploaded_files)` (app.py lines 94-121).  `uploaded_files`
falsy (None or the empty list) returns `False` immediately; otherwise the
loop runs over the batch in order and the `new_files_added` flag is
returned. -/
def process_uploads (st : AppState) (batch : List IncomingFile) :
    AppState × Bool :=
  if batch.isEmpty then (st, false)
  else batch.foldl (fun p f => processOne p.1 p.2 f) (st, false)

/-- Embedding of `get_file_stats()` (app.py lines 18-25): total, PDF count (entries whose
"type" equals "application/pdf"), and the rest. -/
def get_file_stats (files : List UploadedFile) : Nat × Nat × Nat :=
  let total_files := files.length
  let pdf_count := files.countP (fun f => f.ftype == "application/pdf")
  (total_files, pdf_count, total_files - pdf_count)

/-- Round `num / den` to the nearest integer, ties to even: the rounding of
Python's `f"{x:.1f}"` applied to `x = num/den * 10⁻¹`.  For `den` equal to
1024 or 1048576 and `num = 10 * size` with `size < 2⁵³`, the double
`size/den` is exact, so formatting the double rounds the exact rational
half-to-even, which is this function. -/
def roundHalfEven (num den : Nat) : Nat :=
  let q := num / den
  let r := num % den
  if 2 * r < den then q
  else if den < 2 * r then q + 1
  else if q % 2 = 0 then q else q + 1

/-- Render a number of tenths as the `:.1f` digit string, e.g. 15 ↦ "1.5". -/
def tenthsStr (k : Nat) : String := toString (k / 10) ++ "." ++ toString (k % 10)

/-- Embedding of `format_file_size(size)` (app.py lines 27-34): strict thresholds at
1 MiB and 1 KiB, one-decimal quotient, else "`size` bytes". -/
def format_file_size (size : Nat) : String :=
  if size > 1024 * 1024 then
    tenthsStr (roundHalfEven (10 * size) (1024 * 1024)) ++ " MB"
  else if size > 1024 then
    tenthsStr (roundHalfEven (10 * size) 1024) ++ " KB"
  else
    toString size ++ " bytes"

/-- An `os.remove` attempt as used by `delete_file` / `clear_all_files`: succeeds
iff the path exists and the oracle does not fail it. -/
def removeOk (d : Disk) (p : String) (fail : String → Bool) : Bool :=
  diskHas d p && !fail p

/-- Disk after an attempted `os.remove` whose failure is swallowed. -/
def tryRemove (d : Disk) (p : String) (fail : String → Bool) : Disk :=
  if removeOk d p fail then diskErase d p else d

/-- Embedding of `delete_file(index)` (app.py lines 154-167): look the entry up
(`none` models the `IndexError` a Python out-of-range subscript raises),
try to remove the disk file (error caught and reported), then
unconditionally `pop(index)` from the in-memory list.  The returned `Bool`
records whether the disk removal succeeded. -/
def delete_file (st : AppState) (index : Nat) (fail : String → Bool) :
    Option (AppState × Bool) :=
  (st.files[index]?).map (fun file_info =>
    ({ files := st.files.eraseIdx index,
       disk := tryRemove st.disk file_info.path fail },
     removeOk st.disk file_info.path fail))

/-- Embedding of `clear_all_files()` (app.py lines 185-193): best-effort `os.remove` of
every entry's path (`except: pass`), then the list is reset to `[]`. -/
def clear_all_files (st : AppState) (fail : String → Bool) : AppState :=
  { files := [],
    disk := st.files.foldl (fun d file_info => tryRemove d file_info.path fail)
      st.disk }

/-- Session start (app.py lines 228-229): `uploaded_files = []`; the
`uploads/` directory may already hold files (`mkdir(exist_ok=True)`). -/
def initState (d : Disk) : AppState := { files := [], disk := d }

/-- States reachable from a fresh session through the three mutating
operations of the store. -/
inductive Reach : AppState → Prop
  | init (d : Disk) : Reach (initState d)
  | upload (st : AppState) (batch : List IncomingFile) :
      Reach st → Reach (process_uploads st batch).1
  | del (st : AppState) (i : Nat) (fail : String → Bool) (r : AppState × Bool) :
      Reach st → delete_file st i fail = some r → Reach r.1
  | clear (st : AppState) (fail : String → Bool) :
      Reach st → Reach (clear_all_files st fail)

end Saras

namespace Saras

/-! ### Helper lemmas -/

/-- Nearest-integer bound for `roundHalfEven` with explicit quotient and
remainder. -/
theorem rheAux (den q r : Nat) (hr : r < den) :
    2 * den * (if 2 * r < den then q else if den < 2 * r then q + 1
               else if q % 2 = 0 then q else q + 1) ≤ 2 * (den * q + r) + den ∧
    2 * (den * q + r) ≤ 2 * den * (if 2 * r < den then q else if den < 2 * r then q + 1
               else if q % 2 = 0 then q else q + 1) + den := by
  split_ifs <;> constructor <;> nlinarith

/-- The value `roundHalfEven num den` is within half of `num / den`:
`|roundHalfEven num den - num/den| ≤ 1/2` written over `Nat`. -/
theorem roundHalfEven_close (num den : Nat) (hden : 0 < den) :
    2 * den * roundHalfEven num den ≤ 2 * num + den ∧
    2 * num ≤ 2 * den * roundHalfEven num den + den := by
  have h2 : num % den < den := Nat.mod_lt num hden
  have h := rheAux den (num / den) (num % den) h2
  unfold roundHalfEven; dsimp only
  rwa [Nat.div_add_mod] at h

/-- The upload loop only appends: the final file list extends the initial
one by a tail `t`, and the `new_files_added` flag of the result is the
initial flag or-ed with "the tail is nonempty". -/
theorem foldl_files_flag (batch : List IncomingFile) :
    ∀ (st : AppState) (flag : Bool),
      ∃ t, (batch.foldl (fun p f => processOne p.1 p.2 f) (st, flag)).1.files
            = st.files ++ t ∧
        (batch.foldl (fun p f => processOne p.1 p.2 f) (st, flag)).2
            = (flag || !t.isEmpty) := by
  induction batch with
  | nil => intro st flag; exact ⟨[], by simp⟩
  | cons f fs ih =>
    intro st flag
    by_cases h : f.name ∈ st.files.map UploadedFile.name
    · have hstep : processOne st flag f = (st, flag) := by simp [processOne, h]
      simpa [List.foldl_cons, hstep] using ih st flag
    · have hstep : processOne st flag f
          = ({ files := st.files ++ [mkEntry f],
               disk := diskWrite st.disk (filePath f.name) f.bytes }, true) := by
        simp [processOne, h]
      obtain ⟨t, ht1, ht2⟩ :=
        ih { files := st.files ++ [mkEntry f],
             disk := diskWrite st.disk (filePath f.name) f.bytes } true
      refine ⟨mkEntry f :: t, ?_, ?_⟩
      · simp only [List.foldl_cons, hstep] at *
        simpa using ht1
      · simp only [List.foldl_cons, hstep] at *
        simp [ht2]

/-- The upload loop never creates a duplicate name: if the incoming state's
names are distinct, so are the final state's. -/
theorem foldl_names_nodup (batch : List IncomingFile) :
    ∀ (st : AppState) (flag : Bool),
      (st.files.map UploadedFile.name).Nodup →
      ((batch.foldl (fun p f => processOne p.1 p.2 f) (st, flag)).1.files.map
          UploadedFile.name).Nodup := by
  induction batch with
  | nil => intro st flag h; simpa using h
  | cons f fs ih =>
    intro st flag h
    by_cases hm : f.name ∈ st.files.map UploadedFile.name
    · have hstep : processOne st flag f = (st, flag) := by simp [processOne, hm]
      rw [List.foldl_cons]
      simp only [hstep]
      exact ih st flag h
    · have hstep : processOne st flag f
          = (⟨st.files ++ [mkEntry f],
              diskWrite st.disk (filePath f.name) f.bytes⟩, true) := by
        simp [processOne, hm]
      have hn : ((st.files ++ [mkEntry f]).map UploadedFile.name).Nodup := by
        simp [List.nodup_append, h, hm, mkEntry]
      rw [List.foldl_cons]
      simp only [hstep]
      exact ih ⟨st.files ++ [mkEntry f],
        diskWrite st.disk (filePath f.name) f.bytes⟩ true hn

/-- Every entry present after the upload loop is either an old entry or
`mkEntry` of some batch item. -/
theorem foldl_mem_files (batch : List IncomingFile) :
    ∀ (st : AppState) (flag : Bool) (e : UploadedFile),
      e ∈ (batch.foldl (fun p f => processOne p.1 p.2 f) (st, flag)).1.files →
      e ∈ st.files ∨ ∃ g, g ∈ batch ∧ e = mkEntry g := by
  induction batch with
  | nil => intro st flag e h; exact Or.inl (by simpa using h)
  | cons f fs ih =>
    intro st flag e h
    by_cases hm : f.name ∈ st.files.map UploadedFile.name
    · have hstep : processOne st flag f = (st, flag) := by simp [processOne, hm]
      rw [List.foldl_cons] at h
      simp only [hstep] at h
      rcases ih st flag e h with h' | ⟨g, hg, he⟩
      · exact Or.inl h'
      · exact Or.inr ⟨g, List.mem_cons_of_mem _ hg, he⟩
    · have hstep : processOne st flag f
          = (⟨st.files ++ [mkEntry f],
              diskWrite st.disk (filePath f.name) f.bytes⟩, true) := by
        simp [processOne, hm]
      rw [List.foldl_cons] at h
      simp only [hstep] at h
      rcases ih ⟨st.files ++ [mkEntry f],
          diskWrite st.disk (filePath f.name) f.bytes⟩ true e h with h' | ⟨g, hg, he⟩
      · rcases List.mem_append.1 h' with h'' | h''
        · exact Or.inl h''
        · exact Or.inr ⟨f, List.mem_cons_self f fs, by simpa using h''⟩
      · exact Or.inr ⟨g, List.mem_cons_of_mem _ hg, he⟩

end Saras

namespace Saras

/-! ### Concrete fixtures used by witnesses and counterexamples -/

/-- A concrete incoming PDF. -/
def wFileA : IncomingFile :=
  { name := "a.pdf", ftype := "application/pdf", bytes := [0, 1] }

/-- A second incoming file sharing `wFileA`'s name but with other bytes. -/
def wFileB : IncomingFile :=
  { name := "a.pdf", ftype := "application/pdf", bytes := [2] }

/-- A concrete incoming PPTX with a fresh name. -/
def wFileC : IncomingFile :=
  { name := "b.pptx",
    ftype := "application/vnd.openxmlformats-officedocument.presentationml.presentation",
    bytes := [3, 4, 5] }

/-- A concrete two-entry state whose files are on disk. -/
def wState : AppState :=
  { files := [mkEntry wFileA, mkEntry wFileC],
    disk := [(filePath wFileA.name, wFileA.bytes), (filePath wFileC.name, wFileC.bytes)] }

/-! ### Claims -/

/-- C1: `process_uploads` handles the batch in order; an item whose name is
already present is skipped with no disk write and no store change, any
other item has its bytes written to `uploads/name` and the entry
`{name, path, type, size}` appended; in particular a two-item batch with a
repeated name adds only the first item and leaves the store at length 1. -/
theorem process_uploads_dedup (st : AppState) (flag : Bool) (f a b : IncomingFile)
    (d : Disk) (hab : a.name = b.name) :
    (f.name ∈ st.files.map UploadedFile.name → processOne st flag f = (st, flag)) ∧
    (f.name ∉ st.files.map UploadedFile.name →
      processOne st flag f
        = (⟨st.files ++ [mkEntry f],
            diskWrite st.disk (filePath f.name) f.bytes⟩, true)) ∧
    (process_uploads (initState d) [a, b]).1.files = [mkEntry a] ∧
    (process_uploads (initState d) [a, b]).1.files.length = 1 := by
  have hskip : ∀ (st' : AppState) (fl : Bool) (g : IncomingFile),
      g.name ∈ st'.files.map UploadedFile.name → processOne st' fl g = (st', fl) := by
    intro st' fl g hg; simp [processOne, hg]
  have hadd : ∀ (st' : AppState) (fl : Bool) (g : IncomingFile),
      g.name ∉ st'.files.map UploadedFile.name →
      processOne st' fl g
        = (⟨st'.files ++ [mkEntry g],
            diskWrite st'.disk (filePath g.name) g.bytes⟩, true) := by
    intro st' fl g hg; simp [processOne, hg]
  have h1 : processOne (initState d) false a
      = (⟨[mkEntry a], diskWrite d (filePath a.name) a.bytes⟩, true) := by
    simpa [initState] using hadd (initState d) false a (by simp [initState])
  have h2 : processOne ⟨[mkEntry a], diskWrite d (filePath a.name) a.bytes⟩ true b
      = (⟨[mkEntry a], diskWrite d (filePath a.name) a.bytes⟩, true) := by
    exact hskip _ true b (by simp [mkEntry, hab])
  have hrun : (process_uploads (initState d) [a, b]).1.files = [mkEntry a] := by
    unfold process_uploads
    simp only [List.isEmpty_cons, Bool.false_eq_true, if_false, List.foldl_cons,
      List.foldl_nil]
    simp only [h1, h2]
  exact ⟨hskip st flag f, hadd st flag f, hrun, by rw [hrun]; rfl⟩

/-- C1 witness: the duplicate-name batch `[wFileA, wFileB]` from a fresh
session yields exactly the first file's entry, and a second upload of a
name already stored changes nothing. -/
theorem process_uploads_dedup_w :
    processOne ⟨[mkEntry wFileA], []⟩ true wFileB = (⟨[mkEntry wFileA], []⟩, true) ∧
    (process_uploads (initState []) [wFileA, wFileB]).1.files = [mkEntry wFileA] := by
  have h := process_uploads_dedup ⟨[mkEntry wFileA], []⟩ true wFileB wFileA wFileB []
    (by decide)
  exact ⟨h.1 (by decide), h.2.2.1⟩

/-- C3 counterexample: `process_uploads` does not return the number of
entries added — the batches `[wFileA]` and `[wFileA, wFileC]` add 1 and 2
entries respectively, yet the function returns the same value for both
(the boolean `new_files_added`, not a count). -/
theorem process_uploads_not_count :
    (process_uploads (initState []) [wFileA]).2
        = (process_uploads (initState []) [wFileA, wFileC]).2 ∧
    (process_uploads (initState []) [wFileA]).1.files.length = 1 ∧
    (process_uploads (initState []) [wFileA, wFileC]).1.files.length = 2 := by
  refine ⟨?_, ?_, ?_⟩ <;> rfl

/-- C3 amended: `process_uploads` returns the boolean `new_files_added`,
true exactly when at least one entry was actually added from the batch
(equivalently, when the store grew). -/
theorem process_uploads_flag_iff_growth (st : AppState) (batch : List IncomingFile) :
    (process_uploads st batch).2 = true ↔
      st.files.length < (process_uploads st batch).1.files.length := by
  unfold process_uploads
  cases hb : batch.isEmpty with
  | true => simp
  | false =>
    simp only [Bool.false_eq_true, if_false]
    obtain ⟨t, ht1, ht2⟩ := foldl_files_flag batch st false
    rw [ht1, ht2]
    cases t <;> simp

/-- C4: `clear_all_files` always leaves the store empty, whatever the
per-file deletion outcomes chosen by the failure oracle; the caller sees
no error (the result is a plain state, statistics read all zero). -/
theorem clear_all_files_empties (st : AppState) (fail : String → Bool) :
    (clear_all_files st fail).files = [] ∧
    get_file_stats (clear_all_files st fail).files = (0, 0, 0) :=
  ⟨rfl, rfl⟩

/-- Three PDFs followed by two PPTX entries, for the C5 example. -/
def demoFiles : List UploadedFile :=
  [⟨"1.pdf", "uploads/1.pdf", "application/pdf", 10⟩,
   ⟨"2.pdf", "uploads/2.pdf", "application/pdf", 20⟩,
   ⟨"3.pdf", "uploads/3.pdf", "application/pdf", 30⟩,
   ⟨"1.pptx", "uploads/1.pptx",
    "application/vnd.openxmlformats-officedocument.presentationml.presentation", 40⟩,
   ⟨"2.pptx", "uploads/2.pptx",
    "application/vnd.openxmlformats-officedocument.presentationml.presentation", 50⟩]

/-- C5: `get_file_stats` returns the entry count, the number of entries
typed `application/pdf`, and the difference; on 3 PDFs and 2 PPTX files it
returns `(5, 3, 2)`. -/
theorem get_file_stats_spec (files : List UploadedFile) :
    get_file_stats files
        = (files.length,
           (files.filter (fun f => f.ftype == "application/pdf")).length,
           files.length
             - (files.filter (fun f => f.ftype == "application/pdf")).length) ∧
    get_file_stats demoFiles = (5, 3, 2) := by
  exact ⟨by simp [get_file_stats, List.countP_eq_length_filter], by rfl⟩

/-- C9: with a valid index (`i < length`), `delete_file`'s entry lookup
succeeds and the operation reaches its result — the out-of-range branch is
unreachable. -/
theorem delete_file_in_range_safe (st : AppState) (i : Nat) (fail : String → Bool)
    (h : i < st.files.length) :
    (st.files[i]?).isSome ∧ (delete_file st i fail).isSome := by
  have hs : (st.files[i]?).isSome := by
    rw [List.getElem?_eq_getElem h]; rfl
  refine ⟨hs, ?_⟩
  unfold delete_file
  cases hx : st.files[i]? with
  | none => rw [hx] at hs; simp at hs
  | some fi => simp

/-- C9 witness: index 1 is valid in the two-entry state `wState`, so the
lookup and the deletion both succeed there. -/
theorem delete_file_in_range_safe_w :
    ((wState.files[1]?).isSome ∧ (delete_file wState 1 (fun _ => false)).isSome) :=
  delete_file_in_range_safe wState 1 (fun _ => false) (by decide)

/-- C10: the formatter's thresholds are strict — exactly 1 KiB renders in
the bytes bucket and exactly 1 MiB renders in the KB bucket. -/
theorem format_file_size_boundaries :
    format_file_size 1024 = "1024 bytes" ∧ format_file_size 1048576 = "1024.0 KB" :=
  ⟨rfl, rfl⟩

end Saras

namespace Saras

/-- Whenever `delete_file` succeeds, the in-memory list of the result is
exactly the original list with position `index` erased, whatever the disk
and the failure oracle did. -/
theorem delete_file_files (st : AppState) (i : Nat) (fail : String → Bool)
    (r : AppState × Bool) (h : delete_file st i fail = some r) :
    r.1.files = st.files.eraseIdx i := by
  unfold delete_file at h
  rcases Option.map_eq_some'.1 h with ⟨fi, hfi, hr⟩
  subst hr
  rfl

/-- C2: for a valid index, `delete_file` removes exactly entry `i` from the
in-memory sequence — the result keeps the other entries in order and is one
shorter — and it does so for every failure oracle, i.e. regardless of the
on-disk deletion outcome. -/
theorem delete_file_removes_exactly (st : AppState) (i : Nat) (fail : String → Bool)
    (h : i < st.files.length) :
    (delete_file st i fail).map (fun r => r.1.files)
        = some (st.files.take i ++ st.files.drop (i + 1)) ∧
    (st.files.take i ++ st.files.drop (i + 1)).length = st.files.length - 1 := by
  constructor
  · unfold delete_file
    rw [List.getElem?_eq_getElem h]
    simp [List.eraseIdx_eq_take_drop_succ]
  · rw [← List.eraseIdx_eq_take_drop_succ, List.length_eraseIdx, if_pos h]

/-- C2 witness: deleting index 0 of the two-entry state `wState` under an
always-failing disk still removes exactly the first entry in memory. -/
theorem delete_file_removes_exactly_w :
    (delete_file wState 0 (fun _ => true)).map (fun r => r.1.files)
        = some (wState.files.take 0 ++ wState.files.drop (0 + 1)) ∧
    (wState.files.take 0 ++ wState.files.drop (0 + 1)).length
        = wState.files.length - 1 :=
  delete_file_removes_exactly wState 0 (fun _ => true) (by decide)

/-- C6: every state reachable from a fresh session through
`process_uploads`, `delete_file` and `clear_all_files` has pairwise
distinct entry names — also when one batch repeats a name. -/
theorem store_names_nodup (st : AppState) (h : Reach st) :
    (st.files.map UploadedFile.name).Nodup := by
  induction h with
  | init d => simp [initState]
  | upload st' batch _ ih =>
    unfold process_uploads
    cases hb : batch.isEmpty with
    | true => simpa using ih
    | false =>
      simp only [Bool.false_eq_true, if_false]
      exact foldl_names_nodup batch st' false ih
  | del st' i fail r _ hdel ih =>
    rw [delete_file_files st' i fail r hdel]
    exact ih.sublist ((List.eraseIdx_sublist st'.files i).map UploadedFile.name)
  | clear st' fail _ _ => simp [clear_all_files]

/-- C6 witness: the names of a fresh session's store are distinct. -/
theorem store_names_nodup_w :
    ((initState []).files.map UploadedFile.name).Nodup :=
  store_names_nodup (initState []) (Reach.init [])

/-- C7: the size formatter renders `0`, `1500`, `5242880` and `2000000` as
the spec's examples, puts every size of at most 1 KiB in the bytes bucket,
and otherwise renders "`k/10`.`k%10` KB" (respectively " MB") where `k` is
within half a tenth of `10*size/1024` (respectively `10*size/1048576`) —
the one-decimal rendering of the quotient. -/
theorem format_file_size_spec (size : Nat) :
    format_file_size 0 = "0 bytes" ∧
    format_file_size 1500 = "1.5 KB" ∧
    format_file_size 5242880 = "5.0 MB" ∧
    format_file_size 2000000 = "1.9 MB" ∧
    (size ≤ 1024 → format_file_size size = toString size ++ " bytes") ∧
    (1024 < size → size ≤ 1024 * 1024 →
      format_file_size size = tenthsStr (roundHalfEven (10 * size) 1024) ++ " KB" ∧
      2 * 1024 * roundHalfEven (10 * size) 1024 ≤ 2 * (10 * size) + 1024 ∧
      2 * (10 * size) ≤ 2 * 1024 * roundHalfEven (10 * size) 1024 + 1024) ∧
    (1024 * 1024 < size →
      format_file_size size
          = tenthsStr (roundHalfEven (10 * size) (1024 * 1024)) ++ " MB" ∧
      2 * (1024 * 1024) * roundHalfEven (10 * size) (1024 * 1024)
          ≤ 2 * (10 * size) + 1024 * 1024 ∧
      2 * (10 * size)
          ≤ 2 * (1024 * 1024) * roundHalfEven (10 * size) (1024 * 1024)
              + 1024 * 1024) := by
  refine ⟨rfl, rfl, rfl, rfl, ?_, ?_, ?_⟩
  · intro h
    unfold format_file_size
    rw [if_neg (by omega), if_neg (by omega)]
  · intro h1 h2
    unfold format_file_size
    rw [if_neg (by omega), if_pos (by omega)]
    exact ⟨rfl, (roundHalfEven_close (10 * size) 1024 (by norm_num)).1,
      (roundHalfEven_close (10 * size) 1024 (by norm_num)).2⟩
  · intro h1
    unfold format_file_size
    rw [if_pos (by omega)]
    exact ⟨rfl, (roundHalfEven_close (10 * size) (1024 * 1024) (by norm_num)).1,
      (roundHalfEven_close (10 * size) (1024 * 1024) (by norm_num)).2⟩

/-- C7 witness: 2048 bytes land in the KB bucket with the one-decimal
rendering of `20480/1024`. -/
theorem format_file_size_spec_w :
    format_file_size 2048 = tenthsStr (roundHalfEven (10 * 2048) 1024) ++ " KB" ∧
    2 * 1024 * roundHalfEven (10 * 2048) 1024 ≤ 2 * (10 * 2048) + 1024 ∧
    2 * (10 * 2048) ≤ 2 * 1024 * roundHalfEven (10 * 2048) 1024 + 1024 :=
  (format_file_size_spec 2048).2.2.2.2.2.1 (by norm_num) (by norm_num)

/-- C8: an added item's stored `size` is the byte length of its payload:
adding a not-yet-present file appends the entry built from it, whose
`size` equals `length bytes`, and the very same bytes sit on disk at the
entry's path; moreover every entry of a store produced by
`process_uploads` is an old entry or is built this way from a batch item. -/
theorem upload_size_matches_payload (st : AppState) (flag : Bool) (f : IncomingFile)
    (h : f.name ∉ st.files.map UploadedFile.name)
    (batch : List IncomingFile) (e : UploadedFile)
    (he : e ∈ (process_uploads st batch).1.files) :
    (processOne st flag f).1.files = st.files ++ [mkEntry f] ∧
    (mkEntry f).size = f.bytes.length ∧
    diskLookup (processOne st flag f).1.disk (mkEntry f).path = some f.bytes ∧
    (e ∈ st.files ∨ ∃ g, g ∈ batch ∧ e = mkEntry g ∧ e.size = g.bytes.length) := by
  refine ⟨by simp [processOne, h], rfl, ?_, ?_⟩
  · simp [processOne, h, diskWrite, diskLookup, mkEntry]
  · unfold process_uploads at he
    cases hb : batch.isEmpty with
    | true => simp [hb] at he; exact Or.inl he
    | false =>
      simp only [hb, Bool.false_eq_true, if_false] at he
      rcases foldl_mem_files batch st false e he with h' | ⟨g, hg, hge⟩
      · exact Or.inl h'
      · exact Or.inr ⟨g, hg, hge, by rw [hge]; rfl⟩

/-- C8 witness: uploading `wFileA` into a fresh session stores size 2 (the
payload length) and puts the payload at `uploads/a.pdf`. -/
theorem upload_size_matches_payload_w :
    (processOne (initState []) false wFileA).1.files
        = (initState []).files ++ [mkEntry wFileA] ∧
    (mkEntry wFileA).size = wFileA.bytes.length ∧
    diskLookup (processOne (initState []) false wFileA).1.disk (mkEntry wFileA).path
        = some wFileA.bytes := by
  have h := upload_size_matches_payload (initState []) false wFileA (by decide)
    [wFileC] (mkEntry wFileC) (by decide)
  exact ⟨h.1, h.2.1, h.2.2.1⟩

end Saras
